import Mathlib

/-!
Verification development for the content-agent video processor
(`services/agents/content-agent/content_agent/video_processor.py`).

The segment-scoring and clip-selection pipeline is embedded shallowly:

* Machine floats are idealised as exact rationals `ℚ`; the square root
  used by `np.std` is the exact real square root, and the comparison
  `combined > mean + std` is carried out by the decidable, equivalent
  test `mean < combined ∧ var < (combined - mean)^2` (see
  `peakTest_eq_true_iff`).
* The external decoding library (moviepy `get_frame`) and the pixel
  statistics computed by cv2/numpy on a decoded frame (Laplacian
  variance, mean grayscale intensity) are modelled as data carried by an
  abstract `Frame`; everything downstream of those measurements is the
  repository's own code and is translated literally.
* `np.max` of an empty array raises `ValueError`; fallible paths return
  `Except`.
* The file-writing side effects of clip extraction (subclip, resize,
  overlay, encode, thumbnail) are external sinks; the extraction
  function is modelled as the pure metadata computation the source
  performs, with generated file names kept as strings.
-/

namespace VideoProc

/-- A decoded video frame, as seen by the analyzer.  The pixel array
itself is external; the model keeps its dimensions together with the two
externally computed statistics the source reads off the grayscale image:
`cv2.Laplacian(gray, cv2.CV_64F).var()` and `np.mean(gray)`. -/
structure Frame where
  height : ℕ
  width : ℕ
  laplacianVar : ℚ
  grayMean : ℚ
deriving DecidableEq, Repr

/-- The frame source collaborator (moviepy `VideoFileClip`): a duration
and a frame per timestamp. -/
structure Video where
  duration : ℚ
  getFrame : ℚ → Frame

/-- Errors surfaced by the analysis pipeline.  `valueError` models the
`ValueError` numpy raises for `np.max` of an empty array. -/
inductive AnalysisError where
  | valueError
deriving DecidableEq, Repr

/-- A scored time range, the dict built by `_find_interesting_segments`. -/
structure Segment where
  start_time : ℚ
  end_time : ℚ
  score : ℚ
  duration : ℚ
deriving DecidableEq, Repr

/-- The dataclass `VideoClip` of the source (clip metadata). -/
structure VideoClip where
  start_time : ℚ
  end_time : ℚ
  duration : ℚ
  file_path : String
  thumbnail_path : String
  description : String
  tags : List String
  quality_score : ℚ
  platform : String
deriving DecidableEq, Repr

/-- The clip-relevant part of the dataclass `VideoProcessingConfig`. -/
structure VideoProcessingConfig where
  min_clip_duration : ℚ := 3
  max_clip_duration : ℚ := 60
  preferred_clip_duration : ℚ := 15
deriving DecidableEq, Repr

/-- The default configuration (`VideoProcessingConfig()`). -/
def defaultConfig : VideoProcessingConfig := {}

/-- `np.linspace a b n`: `n` evenly spaced points from `a` to `b`,
inclusive of both ends; `n = 0` gives `[]`, `n = 1` gives `[a]`. -/
def linspace (a b : ℚ) (n : ℕ) : List ℚ :=
  if n ≤ 1 then (List.range n).map (fun _ => a)
  else (List.range n).map (fun i : ℕ => a + (b - a) * (i : ℚ) / ((n : ℚ) - 1))

/-- `np.max` of a nonempty list (the empty case raises and is handled at
the call site; the value returned here for `[]` is never used). -/
def npMax : List ℚ → ℚ
  | [] => 0
  | x :: xs => xs.foldl max x

/-- `np.mean` (the empty case never reaches this model's uses). -/
def npMean (xs : List ℚ) : ℚ := xs.sum / (xs.length : ℚ)

/-- Population variance, the square of `np.std` (default `ddof = 0`). -/
def npVar (xs : List ℚ) : ℚ := npMean (xs.map (fun x => (x - npMean xs) ^ 2))

/-- `_calculate_motion_score`: Laplacian variance of the grayscale
frame, delegated to cv2 (carried by the `Frame`). -/
def calculate_motion_score (gray : Frame) : ℚ := gray.laplacianVar

/-- `_calculate_composition_score`: reads the frame dimensions, computes
the rule-of-thirds grid, and returns the constant base score `0.5`. -/
def calculate_composition_score (frame : Frame) : ℚ :=
  let third_w := frame.width / 3
  let third_h := frame.height / 3
  let score : ℚ := 1 / 2
  let _ := third_w
  let _ := third_h
  score

/-- The `1e-6` guard in the motion normalization. -/
def eps : ℚ := 1 / 1000000

/-- The per-sample combined scores:
`(motion/(max motion + 1e-6) + brightness/255 + composition) / 3`. -/
def combinedScores (motion brightness composition : List ℚ) : List ℚ :=
  let motion_norm := motion.map (fun m => m / (npMax motion + eps))
  let brightness_norm := brightness.map (fun b => b / 255)
  let comp_norm := composition
  (((motion_norm.zipWith (· + ·) brightness_norm).zipWith (· + ·) comp_norm).map
    (fun s => s / 3))

/-- The decidable rendering of the strict peak test
`combined > mean + std` (`std` being the real square root of the
population variance): see `peakTest_eq_true_iff`. -/
def peakTest (c m v : ℚ) : Bool := decide (m < c) && decide (v < (c - m) ^ 2)

/-- The peak test as the source writes it, over the reals:
`combined > mean + sqrt variance`. -/
def exceedsThreshold (c m v : ℚ) : Prop :=
  (m : ℝ) + Real.sqrt (v : ℝ) < (c : ℝ)

/-- `np.where(combined_scores > threshold)[0]`: the indices of the
samples whose combined score strictly exceeds `mean + std`. -/
def peakIndices (combined : List ℚ) : List ℕ :=
  (List.range combined.length).filter
    (fun i => peakTest (combined.getD i 0) (npMean combined) (npVar combined))

/-- The grouping loop of `_find_interesting_segments`: `cur` is
`current_segment`, `prev` the previously seen peak index; a gap of more
than 3 sample-steps closes the current group. -/
def groupPeaksAux (cur : List ℕ) (prev : ℕ) : List ℕ → List (List ℕ)
  | [] => [cur]
  | p :: ps =>
    if p - prev ≤ 3 then groupPeaksAux (cur ++ [p]) p ps
    else cur :: groupPeaksAux [p] p ps

/-- Group nearby peaks: maximal runs of peak indices in which
consecutive members are at most 3 sample-steps apart. -/
def groupPeaks : List ℕ → List (List ℕ)
  | [] => []
  | p :: ps => groupPeaksAux [p] p ps

/-- The segment dict built from one group: `start_time`/`end_time` are
the timestamps of the group's first/last member, `score` the mean
combined score of its members. -/
def mkSegment (times combined : List ℚ) (g : List ℕ) : Segment :=
  let start_time := times.getD (g.headD 0) 0
  let end_time := times.getD (g.getLastD 0) 0
  { start_time := start_time
    end_time := end_time
    score := npMean (g.map (fun j => combined.getD j 0))
    duration := end_time - start_time }

/-- Segments from the peak list: only groups of at least 2 samples
contribute. -/
def segmentsFromPeaks (times combined : List ℚ) (peaks : List ℕ) : List Segment :=
  ((groupPeaks peaks).filter (fun g => 2 ≤ g.length)).map (mkSegment times combined)

/-- `segments.sort(key=lambda x: x['score'], reverse=True)`: stable sort
descending by score. -/
def sortByScoreDesc (segs : List Segment) : List Segment :=
  segs.mergeSort (fun a b => decide (b.score ≤ a.score))

/-- `_find_interesting_segments`.  With no samples, `np.max` of the
empty motion list raises `ValueError` before anything else happens. -/
def find_interesting_segments (times motion brightness composition : List ℚ) :
    Except AnalysisError (List Segment) :=
  if motion.isEmpty then .error .valueError
  else
    let combined := combinedScores motion brightness composition
    .ok (sortByScoreDesc (segmentsFromPeaks times combined (peakIndices combined)))

/-- `sample_times = np.linspace(0, video.duration, min(30, int(video.duration)))`. -/
def sampleTimesOf (v : Video) : List ℚ :=
  linspace 0 v.duration (min 30 (Int.toNat ⌊v.duration⌋))

/-- The motion score series of the sampled frames. -/
def motionScoresOf (v : Video) : List ℚ :=
  (sampleTimesOf v).map (fun t => calculate_motion_score (v.getFrame t))

/-- The brightness score series (`np.mean(gray)` per sampled frame). -/
def brightnessScoresOf (v : Video) : List ℚ :=
  (sampleTimesOf v).map (fun t => (v.getFrame t).grayMean)

/-- The composition score series. -/
def compositionScoresOf (v : Video) : List ℚ :=
  (sampleTimesOf v).map (fun t => calculate_composition_score (v.getFrame t))

/-- The combined score series of an analysis run. -/
def combinedOf (v : Video) : List ℚ :=
  combinedScores (motionScoresOf v) (brightnessScoresOf v) (compositionScoresOf v)

/-- The dict returned by `_analyze_video`. -/
structure AnalysisResult where
  interesting_segments : List Segment
  motion_scores : List ℚ
  brightness_scores : List ℚ
  composition_scores : List ℚ
  total_duration : ℚ
deriving DecidableEq, Repr

/-- `_analyze_video`: sample, score, and find interesting segments. -/
def analyze_video (v : Video) : Except AnalysisError AnalysisResult :=
  match find_interesting_segments (sampleTimesOf v) (motionScoresOf v)
      (brightnessScoresOf v) (compositionScoresOf v) with
  | .error e => .error e
  | .ok segs =>
      .ok { interesting_segments := segs
            motion_scores := motionScoresOf v
            brightness_scores := brightnessScoresOf v
            composition_scores := compositionScoresOf v
            total_duration := v.duration }

/-- The segment list an analysis run hands to its caller (empty when the
run raised). -/
def segmentsOf (v : Video) : List Segment :=
  match analyze_video v with
  | .ok r => r.interesting_segments
  | .error _ => []

/-- `_generate_tags`. -/
def generate_tags (platform : String) (segment : Segment) : List String :=
  let base_tags := ["drone", "farm", "agriculture", "aerial"]
  let base_tags :=
    if platform = "youtube" then base_tags ++ ["youtube", "longform", "educational"]
    else if platform = "instagram" then base_tags ++ ["instagram", "visual", "story"]
    else if platform = "tiktok" then base_tags ++ ["tiktok", "shortform", "viral"]
    else base_tags
  if segment.score > 7 / 10 then base_tags ++ ["high_quality"]
  else if segment.score > 1 / 2 then base_tags ++ ["good_quality"]
  else base_tags

/-- `_extract_platform_clips`: take the top 5 segments, clamp each
duration into `[min_clip_duration, max_clip_duration]`, recompute the
time window, and build the clip metadata.  The subclip / resize /
overlay / encode / thumbnail steps are external side effects; only the
names they produce are kept. -/
def extract_platform_clips (videoDuration : ℚ) (analysis : AnalysisResult)
    (platform media_id : String) (config : VideoProcessingConfig) : List VideoClip :=
  let segments := analysis.interesting_segments
  (segments.take 5).enum.map (fun p =>
    let i := p.1
    let segment := p.2
    let duration := max segment.duration config.min_clip_duration
    let duration := min duration config.max_clip_duration
    let start_time := max 0 segment.start_time
    let end_time := min videoDuration (start_time + duration)
    { start_time := start_time
      end_time := end_time
      duration := duration
      file_path := media_id ++ "_" ++ platform ++ "_clip_" ++ toString (i + 1) ++ ".mp4"
      thumbnail_path := media_id ++ "_" ++ platform ++ "_thumb_" ++ toString (i + 1) ++ ".jpg"
      description := "Optimized " ++ platform ++ " clip from drone footage"
      tags := generate_tags platform segment
      quality_score := segment.score
      platform := platform })

/-! ### Concrete inputs -/

/-- A 5-second synthetic video whose frames are bright between t = 2 s
and t = 4 s and dark elsewhere. -/
def burstVideo : Video :=
  { duration := 5
    getFrame := fun t =>
      { height := 100, width := 100
        laplacianVar := 0
        grayMean := if 2 ≤ t ∧ t ≤ 4 then 255 else 0 } }

/-- The single segment the burst video produces. -/
def burstSegment : Segment :=
  { start_time := 5 / 2, end_time := 15 / 4, score := 1 / 2, duration := 5 / 4 }

/-- A half-second video: no frames get sampled. -/
def halfSecondVideo : Video := { duration := 1 / 2, getFrame := fun _ => ⟨1, 1, 0, 0⟩ }

/-- A three-quarter-second video: no frames get sampled. -/
def threeQuarterVideo : Video := { duration := 3 / 4, getFrame := fun _ => ⟨1, 1, 0, 0⟩ }

/-- A 2-second video of identical frames. -/
def uniformVideo : Video := { duration := 2, getFrame := fun _ => ⟨100, 100, 7, 9⟩ }

/-- An analysis holding one 1-second segment of a 2-second video. -/
def shortVideoAnalysis : AnalysisResult :=
  { interesting_segments := [{ start_time := 0, end_time := 1, score := 1 / 2, duration := 1 }]
    motion_scores := [], brightness_scores := [], composition_scores := []
    total_duration := 2 }

/-- An analysis holding one inverted segment (end before start). -/
def invertedAnalysis : AnalysisResult :=
  { interesting_segments := [{ start_time := 5, end_time := 2, score := 1 / 2, duration := -3 }]
    motion_scores := [], brightness_scores := [], composition_scores := []
    total_duration := 10 }

/-- Two observably identical videos whose frame functions differ
syntactically. -/
def swapVideoA : Video := { duration := 2, getFrame := fun t => ⟨3, 4, t + 1, 6⟩ }

/-- The same video with the addition written the other way around. -/
def swapVideoB : Video := { duration := 2, getFrame := fun t => ⟨3, 4, 1 + t, 6⟩ }

end VideoProc

/-! ### Helper lemmas -/

namespace VideoProc

theorem npMean_nonneg {xs : List ℚ} (h : ∀ x ∈ xs, 0 ≤ x) : 0 ≤ npMean xs := by
  unfold npMean
  exact div_nonneg (List.sum_nonneg h) (by positivity)

theorem npVar_nonneg (xs : List ℚ) : 0 ≤ npVar xs := by
  unfold npVar
  refine npMean_nonneg ?_
  intro x hx
  obtain ⟨y, _, rfl⟩ := List.mem_map.mp hx
  positivity

/-- The decidable peak test agrees with the strict comparison against
`mean + std` over the reals, for a nonnegative variance. -/
theorem peakTest_eq_true_iff {c m v : ℚ} :
    peakTest c m v = true ↔ exceedsThreshold c m v := by
  unfold peakTest exceedsThreshold
  rw [Bool.and_eq_true, decide_eq_true_eq, decide_eq_true_eq]
  constructor
  · rintro ⟨h1, h2⟩
    have hcm : (0 : ℝ) < (c : ℝ) - (m : ℝ) := by
      have := (Rat.cast_lt (K := ℝ)).mpr h1
      linarith
    have h2' : ((v : ℝ)) < ((c : ℝ) - (m : ℝ)) ^ 2 := by
      have := (Rat.cast_lt (K := ℝ)).mpr h2
      push_cast at this
      convert this using 2
    have := (Real.sqrt_lt' hcm).mpr h2'
    linarith
  · intro h
    have hs : (0 : ℝ) ≤ Real.sqrt (v : ℝ) := Real.sqrt_nonneg _
    have h1 : (m : ℝ) < (c : ℝ) := by linarith
    have hcm : (0 : ℝ) < (c : ℝ) - (m : ℝ) := by linarith
    have h2 : ((v : ℝ)) < ((c : ℝ) - (m : ℝ)) ^ 2 := by
      have : Real.sqrt (v : ℝ) < (c : ℝ) - (m : ℝ) := by linarith
      exact (Real.sqrt_lt' hcm).mp this
    refine ⟨(Rat.cast_lt (K := ℝ)).mp h1, (Rat.cast_lt (K := ℝ)).mp ?_⟩
    push_cast
    convert h2 using 2

/-- Grouping loses no peaks and invents none: the groups concatenate
back to the peak list. -/
theorem groupPeaksAux_flatten :
    ∀ (ps cur : List ℕ) (prev : ℕ), (groupPeaksAux cur prev ps).flatten = cur ++ ps
  | [], cur, prev => by simp [groupPeaksAux]
  | p :: ps, cur, prev => by
    unfold groupPeaksAux
    by_cases h : p - prev ≤ 3
    · simp only [h, if_true]
      rw [groupPeaksAux_flatten]
      simp
    · simp only [h, if_false]
      rw [List.flatten_cons, groupPeaksAux_flatten]
      simp

theorem groupPeaks_flatten (l : List ℕ) : (groupPeaks l).flatten = l := by
  cases l with
  | nil => rfl
  | cons p ps => rw [groupPeaks, groupPeaksAux_flatten]; rfl

/-- Every emitted group is nonempty. -/
theorem groupPeaksAux_ne_nil :
    ∀ (ps cur : List ℕ) (prev : ℕ), cur ≠ [] →
      ∀ g ∈ groupPeaksAux cur prev ps, g ≠ []
  | [], cur, prev => by
    intro hc g hg
    simp [groupPeaksAux] at hg
    exact hg ▸ hc
  | p :: ps, cur, prev => by
    intro hc g hg
    unfold groupPeaksAux at hg
    by_cases h : p - prev ≤ 3
    · simp only [h, if_true] at hg
      exact groupPeaksAux_ne_nil ps (cur ++ [p]) p (by simp) g hg
    · simp only [h, if_false, List.mem_cons] at hg
      rcases hg with rfl | hg
      · exact hc
      · exact groupPeaksAux_ne_nil ps [p] p (by simp) g hg

theorem groupPeaks_ne_nil {l : List ℕ} {g : List ℕ} (hg : g ∈ groupPeaks l) : g ≠ [] := by
  cases l with
  | nil => simp [groupPeaks] at hg
  | cons p ps => exact groupPeaksAux_ne_nil ps [p] p (by simp) g hg

/-- Within a group, consecutive members are at most 3 sample-steps
apart. -/
theorem groupPeaksAux_chain :
    ∀ (ps cur : List ℕ) (prev : ℕ), cur.getLast? = some prev →
      List.Chain' (fun a b => b - a ≤ 3) cur →
      ∀ g ∈ groupPeaksAux cur prev ps, List.Chain' (fun a b => b - a ≤ 3) g
  | [], cur, prev => by
    intro hlast hchain g hg
    simp [groupPeaksAux] at hg
    exact hg ▸ hchain
  | p :: ps, cur, prev => by
    intro hlast hchain g hg
    unfold groupPeaksAux at hg
    by_cases h : p - prev ≤ 3
    · simp only [h, if_true] at hg
      refine groupPeaksAux_chain ps (cur ++ [p]) p (List.getLast?_concat cur) ?_ g hg
      rw [List.chain'_append]
      refine ⟨hchain, List.chain'_singleton p, ?_⟩
      intro x hx y hy
      rw [hlast] at hx
      simp at hx hy
      omega
    · simp only [h, if_false, List.mem_cons] at hg
      rcases hg with rfl | hg
      · exact hchain
      · exact groupPeaksAux_chain ps [p] p rfl (List.chain'_singleton p) g hg

theorem groupPeaks_chain {l : List ℕ} :
    ∀ g ∈ groupPeaks l, List.Chain' (fun a b => b - a ≤ 3) g := by
  cases l with
  | nil => intro g hg; simp [groupPeaks] at hg
  | cons p ps =>
    exact groupPeaksAux_chain ps [p] p rfl (List.chain'_singleton p)

/-- The first group returned by the loop extends the accumulator. -/
theorem groupPeaksAux_head :
    ∀ (ps cur : List ℕ) (prev : ℕ),
      ∃ rest, (groupPeaksAux cur prev ps).head? = some (cur ++ rest)
  | [], cur, prev => ⟨[], by simp [groupPeaksAux]⟩
  | p :: ps, cur, prev => by
    unfold groupPeaksAux
    by_cases h : p - prev ≤ 3
    · simp only [h, if_true]
      obtain ⟨r, hr⟩ := groupPeaksAux_head ps (cur ++ [p]) p
      exact ⟨[p] ++ r, by rw [hr]; simp⟩
    · simp only [h, if_false]
      exact ⟨[], by simp⟩

/-- Consecutive groups are separated by a gap of more than 3
sample-steps (the grouping is maximal). -/
theorem groupPeaksAux_boundary :
    ∀ (ps cur : List ℕ) (prev : ℕ), cur.getLast? = some prev →
      List.Chain' (fun g h => 3 < h.headD 0 - g.getLastD 0) (groupPeaksAux cur prev ps)
  | [], cur, prev => by
    intro hlast
    simp [groupPeaksAux]
  | p :: ps, cur, prev => by
    intro hlast
    unfold groupPeaksAux
    by_cases h : p - prev ≤ 3
    · simp only [h, if_true]
      exact groupPeaksAux_boundary ps (cur ++ [p]) p (List.getLast?_concat cur)
    · simp only [h, if_false]
      rw [List.chain'_cons']
      refine ⟨?_, groupPeaksAux_boundary ps [p] p rfl⟩
      intro y hy
      obtain ⟨r, hr⟩ := groupPeaksAux_head ps [p] p
      rw [hr] at hy
      simp only [Option.mem_def, Option.some.injEq] at hy
      subst hy
      simp only [List.cons_append, List.headD_cons]
      rw [List.getLastD_eq_getLast?, hlast]
      simpa using Nat.lt_of_not_le (fun hle => h hle)

theorem groupPeaks_boundary (l : List ℕ) :
    List.Chain' (fun g h => 3 < h.headD 0 - g.getLastD 0) (groupPeaks l) := by
  cases l with
  | nil => simp [groupPeaks]
  | cons p ps => exact groupPeaksAux_boundary ps [p] p rfl

theorem combinedScores_length {motion brightness composition : List ℚ}
    (h1 : brightness.length = motion.length) (h2 : composition.length = motion.length) :
    (combinedScores motion brightness composition).length = motion.length := by
  unfold combinedScores
  simp [List.length_zipWith, h1, h2]

theorem combinedOf_length (v : Video) :
    (combinedOf v).length = (sampleTimesOf v).length := by
  unfold combinedOf motionScoresOf brightnessScoresOf compositionScoresOf
  rw [combinedScores_length] <;> simp

theorem mem_peakIndices_lt {combined : List ℚ} {i : ℕ} (h : i ∈ peakIndices combined) :
    i < combined.length := by
  unfold peakIndices at h
  exact List.mem_range.mp (List.mem_filter.mp h).1

theorem peakIndices_pairwise (combined : List ℚ) :
    (peakIndices combined).Pairwise (· < ·) :=
  (List.pairwise_lt_range _).filter _

theorem groupPeaks_sublist {l g : List ℕ} (hg : g ∈ groupPeaks l) : List.Sublist g l := by
  have h := List.sublist_flatten_of_mem hg
  rwa [groupPeaks_flatten] at h

theorem headD_mem {g : List ℕ} {d : ℕ} (h : g ≠ []) : g.headD d ∈ g := by
  cases g with
  | nil => exact absurd rfl h
  | cons a t => exact List.mem_cons_self a t

theorem getLastD_mem {g : List ℕ} {d : ℕ} (h : g ≠ []) : g.getLastD d ∈ g := by
  rw [List.getLastD_eq_getLast?, List.getLast?_eq_getLast g h]
  exact List.getLast_mem h

theorem headD_lt_getLastD {g : List ℕ} (hp : g.Pairwise (· < ·)) (h2 : 2 ≤ g.length) :
    g.headD 0 < g.getLastD 0 := by
  cases g with
  | nil => simp at h2
  | cons a t =>
    cases t with
    | nil => simp at h2
    | cons b t' =>
      rw [List.headD_cons, List.getLastD_cons]
      have hmem : (b :: t').getLastD a ∈ b :: t' := getLastD_mem (by simp)
      exact (List.pairwise_cons.mp hp).1 _ hmem

theorem linspace_length (a b : ℚ) (n : ℕ) : (linspace a b n).length = n := by
  unfold linspace
  split <;> rw [List.length_map, List.length_range]

theorem linspace_getD (d : ℚ) {n i : ℕ} (h2 : 2 ≤ n) (hi : i < n) :
    (linspace 0 d n).getD i 0 = d * i / ((n : ℚ) - 1) := by
  unfold linspace
  rw [if_neg (by omega), List.getD_eq_getElem?_getD, List.getElem?_map,
    List.getElem?_range hi]
  simp only [Option.map_some', Option.getD_some]
  ring

theorem linspace_getD_nonneg {d : ℚ} (hd : 0 ≤ d) {n i : ℕ} (hi : i < n) :
    0 ≤ (linspace 0 d n).getD i 0 := by
  by_cases h2 : 2 ≤ n
  · rw [linspace_getD d h2 hi]
    have hn : (0 : ℚ) < (n : ℚ) - 1 := by
      have : (2 : ℚ) ≤ (n : ℚ) := by exact_mod_cast h2
      linarith
    positivity
  · unfold linspace
    rw [if_pos (by omega)]
    simp [List.getD_eq_getElem?_getD, List.getElem?_range hi]

theorem linspace_getD_le {d : ℚ} (hd : 0 ≤ d) {n i : ℕ} (hi : i < n) :
    (linspace 0 d n).getD i 0 ≤ d := by
  by_cases h2 : 2 ≤ n
  · rw [linspace_getD d h2 hi]
    have hn : (0 : ℚ) < (n : ℚ) - 1 := by
      have : (2 : ℚ) ≤ (n : ℚ) := by exact_mod_cast h2
      linarith
    rw [div_le_iff₀ hn]
    have hcast : (i : ℚ) ≤ (n : ℚ) - 1 := by
      have : (i : ℚ) + 1 ≤ (n : ℚ) := by exact_mod_cast hi
      linarith
    calc d * (i : ℚ) ≤ d * ((n : ℚ) - 1) := by
          exact mul_le_mul_of_nonneg_left hcast hd
      _ = d * ((n : ℚ) - 1) := rfl
  · unfold linspace
    rw [if_pos (by omega)]
    simp [List.getD_eq_getElem?_getD, List.getElem?_range hi]
    exact hd

theorem linspace_getD_lt {d : ℚ} (hd : 0 < d) {n i j : ℕ} (hij : i < j) (hj : j < n) :
    (linspace 0 d n).getD i 0 < (linspace 0 d n).getD j 0 := by
  have h2 : 2 ≤ n := by omega
  rw [linspace_getD d h2 (by omega), linspace_getD d h2 hj]
  have hn : (0 : ℚ) < (n : ℚ) - 1 := by
    have : (2 : ℚ) ≤ (n : ℚ) := by exact_mod_cast h2
    linarith
  have hc : (i : ℚ) < (j : ℚ) := by exact_mod_cast hij
  gcongr

/-- The analysis output, written out along the two branches of the
pipeline (the empty-sample run raises and yields no segments). -/
theorem segmentsOf_def (v : Video) :
    segmentsOf v = if (motionScoresOf v).isEmpty then []
      else sortByScoreDesc (segmentsFromPeaks (sampleTimesOf v) (combinedOf v)
        (peakIndices (combinedOf v))) := by
  by_cases h : (motionScoresOf v).isEmpty
  · rw [if_pos h]
    have hf : find_interesting_segments (sampleTimesOf v) (motionScoresOf v)
        (brightnessScoresOf v) (compositionScoresOf v) = .error .valueError := by
      unfold find_interesting_segments
      rw [if_pos h]
    unfold segmentsOf analyze_video
    rw [hf]
  · rw [if_neg h]
    have hf : find_interesting_segments (sampleTimesOf v) (motionScoresOf v)
        (brightnessScoresOf v) (compositionScoresOf v) =
        .ok (sortByScoreDesc (segmentsFromPeaks (sampleTimesOf v) (combinedOf v)
          (peakIndices (combinedOf v)))) := by
      unfold find_interesting_segments
      rw [if_neg h]
      rfl
    unfold segmentsOf analyze_video
    rw [hf]

theorem sortByScoreDesc_sorted (segs : List Segment) :
    List.Sorted (fun a b => b.score ≤ a.score) (sortByScoreDesc segs) := by
  unfold sortByScoreDesc
  refine List.Pairwise.imp (fun hab => of_decide_eq_true hab) ?_
  exact List.sorted_mergeSort
    (fun a b c h1 h2 => by
      simp only [decide_eq_true_eq] at h1 h2 ⊢
      exact le_trans h2 h1)
    (fun a b => by
      rcases le_total a.score b.score with h | h <;> simp [h]) segs

theorem npMean_const {xs : List ℚ} {c : ℚ} (h : ∀ x ∈ xs, x = c) (hne : xs ≠ []) :
    npMean xs = c := by
  unfold npMean
  rw [List.sum_eq_card_nsmul xs c h]
  have hlen : (0 : ℚ) < (xs.length : ℚ) := by
    have := List.length_pos.mpr hne
    exact_mod_cast this
  rw [nsmul_eq_mul]
  field_simp

theorem npVar_const {xs : List ℚ} {c : ℚ} (h : ∀ x ∈ xs, x = c) : npVar xs = 0 := by
  rcases eq_or_ne xs [] with rfl | hne
  · simp [npVar, npMean]
  · unfold npVar
    have hm : npMean xs = c := npMean_const h hne
    have hz : ∀ y ∈ xs.map (fun x => (x - npMean xs) ^ 2), y = 0 := by
      intro y hy
      obtain ⟨x, hx, rfl⟩ := List.mem_map.mp hy
      rw [hm, h x hx]
      ring
    rw [npMean_const hz (by simpa using hne)]

theorem getD_mem {xs : List ℚ} {i : ℕ} (h : i < xs.length) : xs.getD i 0 ∈ xs := by
  rw [List.getD_eq_getElem?_getD, List.getElem?_eq_getElem h]
  simp [List.getElem_mem]

/-- A uniform combined-score series has no peaks: with zero variance the
threshold equals each score, and the comparison is strict. -/
theorem peakIndices_of_const {combined : List ℚ} {c : ℚ}
    (h : ∀ x ∈ combined, x = c) : peakIndices combined = [] := by
  rcases eq_or_ne combined [] with rfl | hne
  · rfl
  · unfold peakIndices
    rw [List.filter_eq_nil_iff]
    intro i hi
    have hilt : i < combined.length := List.mem_range.mp hi
    have hgd : combined.getD i 0 = c := h _ (getD_mem hilt)
    rw [hgd, npMean_const h hne, npVar_const h]
    simp [peakTest]

/-- `_calculate_composition_score` is the constant 1/2 whatever the
frame contains. -/
theorem composition_const (f : Frame) : calculate_composition_score f = 1 / 2 := rfl

theorem map_all_eq {α : Type} {l : List α} {f : α → ℚ} {c : ℚ}
    (h : ∀ a ∈ l, f a = c) : ∀ x ∈ l.map f, x = c := by
  intro x hx
  obtain ⟨a, ha, rfl⟩ := List.mem_map.mp hx
  exact h a ha

theorem zipWith_all_eq {f : ℚ → ℚ → ℚ} {c1 c2 : ℚ} :
    ∀ {as bs : List ℚ}, (∀ x ∈ as, x = c1) → (∀ x ∈ bs, x = c2) →
      ∀ x ∈ List.zipWith f as bs, x = f c1 c2
  | [], _, _, _ => by simp
  | a :: as, [], _, _ => by simp
  | a :: as, b :: bs, ha, hb => by
    intro x hx
    rw [List.zipWith_cons_cons] at hx
    rcases List.mem_cons.mp hx with rfl | hx
    · rw [ha a (by simp), hb b (by simp)]
    · exact zipWith_all_eq (fun y hy => ha y (by simp [hy]))
        (fun y hy => hb y (by simp [hy])) x hx

/-- A video of observably constant frames yields a uniform combined
score series. -/
theorem combinedOf_const_frames (v : Video) (fr : Frame)
    (hc : ∀ t, v.getFrame t = fr) :
    ∀ x ∈ combinedOf v, ∀ y ∈ combinedOf v, x = y := by
  have hmot : ∀ x ∈ motionScoresOf v, x = fr.laplacianVar := by
    refine map_all_eq (fun t _ => ?_)
    rw [hc t]
    rfl
  have hbri : ∀ x ∈ brightnessScoresOf v, x = fr.grayMean := by
    refine map_all_eq (fun t _ => ?_)
    rw [hc t]
  have hcomp : ∀ x ∈ compositionScoresOf v, x = (1 : ℚ) / 2 := by
    refine map_all_eq (fun t _ => ?_)
    rw [hc t]
    rfl
  have hall : ∀ x ∈ combinedOf v,
      x = (fr.laplacianVar / (npMax (motionScoresOf v) + eps) + fr.grayMean / 255
        + 1 / 2) / 3 := by
    have hmn : ∀ x ∈ (motionScoresOf v).map
        (fun m => m / (npMax (motionScoresOf v) + eps)),
        x = fr.laplacianVar / (npMax (motionScoresOf v) + eps) :=
      map_all_eq (fun a ha => by rw [hmot a ha])
    have hbn : ∀ x ∈ (brightnessScoresOf v).map (fun b => b / 255),
        x = fr.grayMean / 255 :=
      map_all_eq (fun a ha => by rw [hbri a ha])
    have hsum : ∀ x ∈ List.zipWith (· + ·)
        (List.zipWith (· + ·)
          ((motionScoresOf v).map (fun m => m / (npMax (motionScoresOf v) + eps)))
          ((brightnessScoresOf v).map (fun b => b / 255)))
        (compositionScoresOf v),
        x = fr.laplacianVar / (npMax (motionScoresOf v) + eps) + fr.grayMean / 255
          + 1 / 2 :=
      zipWith_all_eq (zipWith_all_eq hmn hbn) hcomp
    unfold combinedOf combinedScores
    exact map_all_eq (fun a ha => by rw [hsum a ha])
  intro x hx y hy
  rw [hall x hx, hall y hy]

/-! ### Claims -/

/-- C3 counterexample: on a video with `0 < duration < 1` the analysis
does not return `[]`; it raises (numpy `np.max` of the empty motion list),
contradicting the claim that `analyze` returns an empty segment list
without error. -/
theorem c3_counterexample :
    0 < halfSecondVideo.duration ∧ halfSecondVideo.duration < 1 ∧
      analyze_video halfSecondVideo = Except.error AnalysisError.valueError := by
  refine ⟨by norm_num [halfSecondVideo], by norm_num [halfSecondVideo], ?_⟩
  have hts : sampleTimesOf halfSecondVideo = [] := by
    show linspace 0 (1 / 2) (min 30 (Int.toNat ⌊(1 / 2 : ℚ)⌋)) = []
    rw [show ⌊(1 / 2 : ℚ)⌋ = 0 by norm_num]
    rfl
  have hmot : motionScoresOf halfSecondVideo = [] := by
    unfold motionScoresOf
    rw [hts]
    rfl
  have hf : find_interesting_segments (sampleTimesOf halfSecondVideo)
      (motionScoresOf halfSecondVideo) (brightnessScoresOf halfSecondVideo)
      (compositionScoresOf halfSecondVideo) = .error .valueError := by
    unfold find_interesting_segments
    rw [hmot]
    rfl
  unfold analyze_video
  rw [hf]

/-- C3 amended: for every video with `0 < duration < 1` no frames are
sampled, so the normalization step takes the maximum of an empty series
and `analyze` raises `ValueError` instead of returning `[]`. -/
theorem c3_short_video_raises (v : Video) (h0 : 0 < v.duration) (h1 : v.duration < 1) :
    analyze_video v = Except.error AnalysisError.valueError := by
  have hfloor : ⌊v.duration⌋ = 0 := by
    rw [Int.floor_eq_zero_iff, Set.mem_Ico]
    exact ⟨le_of_lt h0, h1⟩
  have hts : sampleTimesOf v = [] := by
    unfold sampleTimesOf
    rw [hfloor]
    rfl
  have hmot : motionScoresOf v = [] := by
    unfold motionScoresOf
    rw [hts]
    rfl
  have hf : find_interesting_segments (sampleTimesOf v) (motionScoresOf v)
      (brightnessScoresOf v) (compositionScoresOf v) = .error .valueError := by
    unfold find_interesting_segments
    rw [hmot]
    rfl
  unfold analyze_video
  rw [hf]

/-- C3 amended, witnessed on a concrete three-quarter-second video. -/
theorem c3_short_video_raises_witness :
    0 < threeQuarterVideo.duration ∧ threeQuarterVideo.duration < 1 ∧
      analyze_video threeQuarterVideo = Except.error AnalysisError.valueError :=
  ⟨by norm_num [threeQuarterVideo], by norm_num [threeQuarterVideo],
    c3_short_video_raises threeQuarterVideo (by norm_num [threeQuarterVideo])
      (by norm_num [threeQuarterVideo])⟩

/-- C4: every analysis run returns its segments sorted descending
(ties allowed) by score. -/
theorem c4_segments_sorted_desc (v : Video) :
    List.Sorted (fun a b => b.score ≤ a.score) (segmentsOf v) := by
  rw [segmentsOf_def]
  split
  · exact List.sorted_nil
  · exact sortByScoreDesc_sorted _

/-- C6: a run in which all sampled frames yield the same combined score
selects no peaks (the threshold `mean + stddev` equals each score and the
comparison is strict) and returns no segments. -/
theorem c6_uniform_scores_no_segments (v : Video)
    (h : ∀ x ∈ combinedOf v, ∀ y ∈ combinedOf v, x = y) :
    peakIndices (combinedOf v) = [] ∧ segmentsOf v = [] := by
  have hpk : peakIndices (combinedOf v) = [] := by
    rcases eq_or_ne (combinedOf v) [] with he | hne
    · rw [he]
      rfl
    · obtain ⟨c, hc⟩ := List.exists_mem_of_ne_nil _ hne
      exact peakIndices_of_const (fun x hx => h x hx c hc)
  refine ⟨hpk, ?_⟩
  rw [segmentsOf_def]
  split
  · rfl
  · rw [hpk]
    simp [segmentsFromPeaks, groupPeaks, sortByScoreDesc]

/-- C6 witnessed on a 2-second video of identical frames
(`max_samples = 2`). -/
theorem c6_uniform_scores_witness :
    peakIndices (combinedOf uniformVideo) = [] ∧ segmentsOf uniformVideo = [] :=
  c6_uniform_scores_no_segments uniformVideo
    (combinedOf_const_frames uniformVideo ⟨100, 100, 7, 9⟩ (fun _ => rfl))

/-- C9: the analysis is deterministic in the observable frame data — two
frame sources with the same duration and pointwise equal frames produce
identical analysis results (no hidden randomness; the composition
placeholder is the constant 0.5). -/
theorem c9_analysis_deterministic (v1 v2 : Video)
    (hd : v1.duration = v2.duration)
    (hf : ∀ t, v1.getFrame t = v2.getFrame t) :
    analyze_video v1 = analyze_video v2 := by
  have hts : sampleTimesOf v1 = sampleTimesOf v2 := by
    unfold sampleTimesOf
    rw [hd]
  have hm : motionScoresOf v1 = motionScoresOf v2 := by
    unfold motionScoresOf
    rw [hts]
    exact List.map_congr_left (fun t _ => by rw [hf t])
  have hb : brightnessScoresOf v1 = brightnessScoresOf v2 := by
    unfold brightnessScoresOf
    rw [hts]
    exact List.map_congr_left (fun t _ => by rw [hf t])
  have hcp : compositionScoresOf v1 = compositionScoresOf v2 := by
    unfold compositionScoresOf
    rw [hts]
    exact List.map_congr_left (fun t _ => by rw [hf t])
  unfold analyze_video
  rw [hts, hm, hb, hcp, hd]

/-- C9 witnessed on two syntactically different but observably equal
frame sources. -/
theorem c9_analysis_deterministic_witness :
    analyze_video swapVideoA = analyze_video swapVideoB :=
  c9_analysis_deterministic swapVideoA swapVideoB rfl
    (fun t => by simp [swapVideoA, swapVideoB, Frame.mk.injEq, add_comm])

theorem peakTest_eq_true_of {c m v : ℚ} (h1 : m < c) (h2 : v < (c - m) ^ 2) :
    peakTest c m v = true := by
  unfold peakTest
  rw [Bool.and_eq_true, decide_eq_true_eq, decide_eq_true_eq]
  exact ⟨h1, h2⟩

theorem peakTest_eq_false_of_le {c m v : ℚ} (h : c ≤ m) : peakTest c m v = false := by
  unfold peakTest
  rw [Bool.and_eq_false_iff]
  left
  rw [decide_eq_false_iff_not]
  exact not_lt.mpr h

theorem burst_sampleTimes : sampleTimesOf burstVideo = [0, 5/4, 5/2, 15/4, 5] := by
  unfold sampleTimesOf burstVideo
  rw [show ⌊(5 : ℚ)⌋ = 5 by norm_num]
  rw [show min 30 (Int.toNat 5) = 5 from rfl]
  unfold linspace
  rw [if_neg (by norm_num)]
  rw [show List.range 5 = [0, 1, 2, 3, 4] from rfl]
  simp only [List.map]
  norm_num

theorem burst_motion : motionScoresOf burstVideo = [0, 0, 0, 0, 0] := by
  unfold motionScoresOf
  rw [burst_sampleTimes]
  unfold burstVideo calculate_motion_score
  simp only [List.map]

theorem burst_brightness : brightnessScoresOf burstVideo = [0, 0, 255, 255, 0] := by
  unfold brightnessScoresOf
  rw [burst_sampleTimes]
  unfold burstVideo
  simp only [List.map]
  norm_num

theorem burst_composition :
    compositionScoresOf burstVideo = [1/2, 1/2, 1/2, 1/2, 1/2] := by
  unfold compositionScoresOf
  rw [burst_sampleTimes]
  unfold burstVideo calculate_composition_score
  simp only [List.map]

theorem burst_combined :
    combinedOf burstVideo = [1/6, 1/6, 1/2, 1/2, 1/6] := by
  unfold combinedOf
  rw [burst_motion, burst_brightness, burst_composition]
  unfold combinedScores npMax
  simp only [List.foldl, List.map, List.zipWith]
  norm_num [max_def, eps]

theorem burst_mean : npMean [(1:ℚ)/6, 1/6, 1/2, 1/2, 1/6] = 3/10 := by
  unfold npMean
  norm_num

theorem burst_var : npVar [(1:ℚ)/6, 1/6, 1/2, 1/2, 1/6] = 2/75 := by
  unfold npVar
  rw [burst_mean]
  norm_num [npMean]

theorem burst_peaks : peakIndices (combinedOf burstVideo) = [2, 3] := by
  unfold peakIndices
  simp only [burst_combined, burst_mean, burst_var]
  rw [show ([(1:ℚ)/6, 1/6, 1/2, 1/2, 1/6].length) = 5 from rfl]
  rw [show List.range 5 = [0, 1, 2, 3, 4] from rfl]
  have hlow : peakTest ((1:ℚ)/6) (3/10) (2/75) = false :=
    peakTest_eq_false_of_le (by norm_num)
  have hhigh : peakTest ((1:ℚ)/2) (3/10) (2/75) = true :=
    peakTest_eq_true_of (by norm_num) (by norm_num)
  simp only [List.filter_cons, List.filter_nil]
  rw [show ([(1:ℚ)/6, 1/6, 1/2, 1/2, 1/6].getD 0 0) = 1/6 from rfl]
  rw [show ([(1:ℚ)/6, 1/6, 1/2, 1/2, 1/6].getD 1 0) = 1/6 from rfl]
  rw [show ([(1:ℚ)/6, 1/6, 1/2, 1/2, 1/6].getD 2 0) = 1/2 from rfl]
  rw [show ([(1:ℚ)/6, 1/6, 1/2, 1/2, 1/6].getD 3 0) = 1/2 from rfl]
  rw [show ([(1:ℚ)/6, 1/6, 1/2, 1/2, 1/6].getD 4 0) = 1/6 from rfl]
  rw [hlow, hhigh]
  simp

theorem burst_segments : segmentsOf burstVideo = [burstSegment] := by
  rw [segmentsOf_def]
  rw [if_neg (by rw [burst_motion]; simp)]
  rw [burst_peaks, burst_sampleTimes, burst_combined]
  unfold segmentsFromPeaks
  rw [show groupPeaks [2, 3] = [[2, 3]] from rfl]
  rw [show ([[2, 3]] : List (List ℕ)).filter (fun g => 2 ≤ g.length) = [[2, 3]] from rfl]
  simp only [List.map]
  unfold sortByScoreDesc
  rw [List.mergeSort_singleton]
  unfold mkSegment burstSegment
  simp only [List.headD_cons, List.getLastD_cons, List.getLastD_nil, List.map]
  rw [show ([(0:ℚ), 5/4, 5/2, 15/4, 5].getD 2 0) = 5/2 from rfl]
  rw [show ([(0:ℚ), 5/4, 5/2, 15/4, 5].getD 3 0) = 15/4 from rfl]
  rw [show ([(1:ℚ)/6, 1/6, 1/2, 1/2, 1/6].getD 2 0) = 1/2 from rfl]
  rw [show ([(1:ℚ)/6, 1/6, 1/2, 1/2, 1/6].getD 3 0) = 1/2 from rfl]
  norm_num [npMean]

/-- C7: on a positive-duration video, every returned segment starts no
earlier than 0, ends no later than the video, and is a nonempty range
(timestamps are strictly increasing and each group spans two distinct
sample indices). -/
theorem c7_segment_bounds (v : Video) (hd : 0 < v.duration) :
    ∀ s ∈ segmentsOf v, 0 ≤ s.start_time ∧ s.end_time ≤ v.duration ∧
      s.start_time < s.end_time := by
  intro s hs
  rw [segmentsOf_def] at hs
  by_cases hemp : (motionScoresOf v).isEmpty
  · rw [if_pos hemp] at hs
    simp at hs
  · rw [if_neg hemp] at hs
    unfold sortByScoreDesc at hs
    rw [List.mem_mergeSort] at hs
    unfold segmentsFromPeaks at hs
    obtain ⟨g, hgf, rfl⟩ := List.mem_map.mp hs
    rw [List.mem_filter] at hgf
    obtain ⟨hg, hglen⟩ := hgf
    have hglen2 : 2 ≤ g.length := by simpa using hglen
    have hsub := groupPeaks_sublist hg
    have hgsorted : g.Pairwise (· < ·) :=
      List.Pairwise.sublist hsub (peakIndices_pairwise (combinedOf v))
    have hne : g ≠ [] := groupPeaks_ne_nil hg
    have hheadpk : g.headD 0 ∈ peakIndices (combinedOf v) := hsub.subset (headD_mem hne)
    have hlastpk : g.getLastD 0 ∈ peakIndices (combinedOf v) :=
      hsub.subset (getLastD_mem hne)
    have hheadlt := mem_peakIndices_lt hheadpk
    have hlastlt := mem_peakIndices_lt hlastpk
    rw [combinedOf_length] at hheadlt hlastlt
    have hlen : (sampleTimesOf v).length = min 30 (Int.toNat ⌊v.duration⌋) := by
      unfold sampleTimesOf
      exact linspace_length _ _ _
    rw [hlen] at hheadlt hlastlt
    have hho : g.headD 0 < g.getLastD 0 := headD_lt_getLastD hgsorted hglen2
    refine ⟨?_, ?_, ?_⟩
    · show 0 ≤ (linspace 0 v.duration (min 30 (Int.toNat ⌊v.duration⌋))).getD (g.headD 0) 0
      exact linspace_getD_nonneg (le_of_lt hd) hheadlt
    · show (linspace 0 v.duration (min 30 (Int.toNat ⌊v.duration⌋))).getD
        (g.getLastD 0) 0 ≤ v.duration
      exact linspace_getD_le (le_of_lt hd) hlastlt
    · show (linspace 0 v.duration (min 30 (Int.toNat ⌊v.duration⌋))).getD (g.headD 0) 0 <
        (linspace 0 v.duration (min 30 (Int.toNat ⌊v.duration⌋))).getD (g.getLastD 0) 0
      exact linspace_getD_lt hd hho hlastlt

/-- C7 witnessed on the burst video, whose single segment is
`[5/2, 15/4]` inside the 5-second video. -/
theorem c7_witness :
    0 < burstVideo.duration ∧
      (0 ≤ burstSegment.start_time ∧ burstSegment.end_time ≤ burstVideo.duration ∧
        burstSegment.start_time < burstSegment.end_time) :=
  ⟨by norm_num [burstVideo],
    c7_segment_bounds burstVideo (by norm_num [burstVideo]) burstSegment
      (by rw [burst_segments]; exact List.mem_singleton.mpr rfl)⟩

theorem combinedScores_getD {motion brightness composition : List ℚ} {i : ℕ}
    (h1 : brightness.length = motion.length) (h2 : composition.length = motion.length)
    (hi : i < motion.length) :
    (combinedScores motion brightness composition).getD i 0 =
      (motion.getD i 0 / (npMax motion + eps) + brightness.getD i 0 / 255
        + composition.getD i 0) / 3 := by
  have hlen : (combinedScores motion brightness composition).length = motion.length :=
    combinedScores_length h1 h2
  rw [List.getD_eq_getElem (combinedScores motion brightness composition) 0
    (by rw [hlen]; exact hi)]
  unfold combinedScores
  simp only [List.getElem_map, List.getElem_zipWith]
  rw [List.getD_eq_getElem motion 0 hi,
    List.getD_eq_getElem brightness 0 (by rw [h1]; exact hi),
    List.getD_eq_getElem composition 0 (by rw [h2]; exact hi)]

/-- C5: each sample's combined score is the unweighted mean of the
normalized motion score (`motion / (max motion + 1e-6)`), the normalized
brightness (`brightness / 255`), and the composition score, which the
source computes as the constant 0.5 for every frame. -/
theorem c5_combined_is_normalized_mean (v : Video) (i : ℕ)
    (hi : i < (sampleTimesOf v).length) :
    (combinedOf v).getD i 0 =
      ((motionScoresOf v).getD i 0 / (npMax (motionScoresOf v) + eps)
        + (brightnessScoresOf v).getD i 0 / 255
        + calculate_composition_score (v.getFrame ((sampleTimesOf v).getD i 0))) / 3 ∧
    calculate_composition_score (v.getFrame ((sampleTimesOf v).getD i 0)) = 1 / 2 := by
  have hmlen : (motionScoresOf v).length = (sampleTimesOf v).length :=
    List.length_map _ _
  have hblen : (brightnessScoresOf v).length = (motionScoresOf v).length := by
    unfold brightnessScoresOf motionScoresOf
    rw [List.length_map, List.length_map]
  have hclen : (compositionScoresOf v).length = (motionScoresOf v).length := by
    unfold compositionScoresOf motionScoresOf
    rw [List.length_map, List.length_map]
  have hcomp : (compositionScoresOf v).getD i 0 = 1 / 2 := by
    rw [List.getD_eq_getElem (compositionScoresOf v) 0 (by rw [hclen, hmlen]; exact hi)]
    unfold compositionScoresOf
    rw [List.getElem_map]
    rfl
  constructor
  · unfold combinedOf
    rw [combinedScores_getD hblen hclen (by rw [hmlen]; exact hi), hcomp,
      composition_const]
  · exact composition_const _

/-- C5 witnessed at sample index 2 of the burst video. -/
theorem c5_witness :
    (combinedOf burstVideo).getD 2 0 =
      ((motionScoresOf burstVideo).getD 2 0 / (npMax (motionScoresOf burstVideo) + eps)
        + (brightnessScoresOf burstVideo).getD 2 0 / 255
        + calculate_composition_score
            (burstVideo.getFrame ((sampleTimesOf burstVideo).getD 2 0))) / 3 ∧
    calculate_composition_score
        (burstVideo.getFrame ((sampleTimesOf burstVideo).getD 2 0)) = 1 / 2 :=
  c5_combined_is_normalized_mean burstVideo 2 (by rw [burst_sampleTimes]; norm_num)

/-- Evaluation of the extraction on the 2-second-video analysis: the
1-second segment is padded to the 3-second minimum, the end time is
clamped to the video, and the stored duration stays 3. -/
theorem shortExtract_eval :
    extract_platform_clips 2 shortVideoAnalysis "youtube" "m" defaultConfig =
      [{ start_time := 0, end_time := 2, duration := 3
         file_path := "m_youtube_clip_1.mp4"
         thumbnail_path := "m_youtube_thumb_1.jpg"
         description := "Optimized youtube clip from drone footage"
         tags := ["drone", "farm", "agriculture", "aerial", "youtube", "longform",
           "educational"]
         quality_score := 1 / 2, platform := "youtube" }] := by
  unfold extract_platform_clips shortVideoAnalysis generate_tags
  simp only [List.take, List.enum, List.enumFrom, List.map]
  norm_num [defaultConfig, max_def, min_def]
  and_intros <;> rfl

/-- Evaluation of the extraction on the inverted-segment analysis: the
segment with `end_time ≤ start_time` is processed, not rejected. -/
theorem invertedExtract_eval :
    extract_platform_clips 10 invertedAnalysis "youtube" "m" defaultConfig =
      [{ start_time := 5, end_time := 8, duration := 3
         file_path := "m_youtube_clip_1.mp4"
         thumbnail_path := "m_youtube_thumb_1.jpg"
         description := "Optimized youtube clip from drone footage"
         tags := ["drone", "farm", "agriculture", "aerial", "youtube", "longform",
           "educational"]
         quality_score := 1 / 2, platform := "youtube" }] := by
  unfold extract_platform_clips invertedAnalysis generate_tags
  simp only [List.take, List.enum, List.enumFrom, List.map]
  norm_num [defaultConfig, max_def, min_def]
  and_intros <;> rfl

/-- C2 counterexample: on a 2-second video (shorter than the 3-second
minimum), the clip's `end_time` is clamped to 2 but the stored
`duration` stays 3 — it is not recomputed to `video.duration` as the
claim asserts. -/
theorem c2_counterexample :
    shortVideoAnalysis.total_duration = 2 ∧ (2 : ℚ) < 3 ∧
      (extract_platform_clips 2 shortVideoAnalysis "youtube" "m" defaultConfig).map
        (fun c => (c.start_time, c.end_time, c.duration)) = [(0, 2, 3)] ∧
      (3 : ℚ) ≠ 2 := by
  refine ⟨rfl, by norm_num, ?_, by norm_num⟩
  rw [shortExtract_eval]
  rfl

/-- C2 amended: the extraction returns at most `limit = 5` clips, the
top-5 prefix of the (already score-sorted) segments; `duration` is
clamped into `[3, 60]` and `end_time = min(video.duration,
start_time + duration)`; the stored `duration` is never recomputed after
the `end_time` clamp, so every clip's `duration` field satisfies
`3 ≤ duration ≤ 60` unconditionally, while `end_time - start_time` may
be smaller for videos shorter than 3 s. -/
theorem c2_clip_bounds (videoDuration : ℚ) (analysis : AnalysisResult)
    (platform media_id : String) :
    (extract_platform_clips videoDuration analysis platform media_id
        defaultConfig).length ≤ 5 ∧
    ∀ c ∈ extract_platform_clips videoDuration analysis platform media_id
        defaultConfig,
      3 ≤ c.duration ∧ c.duration ≤ 60 ∧ 0 ≤ c.start_time ∧
        c.end_time = min videoDuration (c.start_time + c.duration) ∧
        c.end_time ≤ videoDuration := by
  constructor
  · unfold extract_platform_clips
    rw [List.length_map, List.enum_eq_enumFrom, List.enumFrom_length, List.length_take]
    exact min_le_left _ _
  · intro c hc
    unfold extract_platform_clips at hc
    obtain ⟨p, hp, rfl⟩ := List.mem_map.mp hc
    refine ⟨?_, ?_, ?_, rfl, ?_⟩
    · show (3 : ℚ) ≤ min (max p.2.duration 3) 60
      exact le_min (le_max_right _ _) (by norm_num)
    · show min (max p.2.duration 3) 60 ≤ 60
      exact min_le_right _ _
    · show (0 : ℚ) ≤ max 0 p.2.start_time
      exact le_max_left _ _
    · show min videoDuration _ ≤ videoDuration
      exact min_le_left _ _

/-- C2 amended, witnessed on the 2-second-video analysis. -/
theorem c2_clip_bounds_witness :
    (3 : ℚ) ≤ (3 : ℚ) ∧ (3 : ℚ) ≤ 60 ∧ (0 : ℚ) ≤ 0 ∧
      (2 : ℚ) = min 2 ((0 : ℚ) + 3) ∧ (2 : ℚ) ≤ 2 :=
  (c2_clip_bounds 2 shortVideoAnalysis "youtube" "m").2
    { start_time := 0, end_time := 2, duration := 3
      file_path := "m_youtube_clip_1.mp4"
      thumbnail_path := "m_youtube_thumb_1.jpg"
      description := "Optimized youtube clip from drone footage"
      tags := ["drone", "farm", "agriculture", "aerial", "youtube", "longform",
        "educational"]
      quality_score := 1 / 2, platform := "youtube" }
    (by rw [shortExtract_eval]; exact List.mem_singleton.mpr rfl)

/-- C10: every clip stores `duration = min(max(segment.duration, 3), 60)`
computed before the `end_time` clamp; `end_time = min(video.duration,
start_time + duration)` with the duration field left as is, so the
stored duration always lies in `[3, 60]` and can exceed
`end_time - start_time` (shown concretely on the 2-second video). -/
theorem c10_stored_duration :
    (∀ (videoDuration : ℚ) (analysis : AnalysisResult) (platform media_id : String),
      ∀ c ∈ extract_platform_clips videoDuration analysis platform media_id
          defaultConfig,
        ∃ seg ∈ analysis.interesting_segments.take 5,
          c.duration = min (max seg.duration 3) 60 ∧
          c.start_time = max 0 seg.start_time ∧
          c.end_time = min videoDuration (c.start_time + c.duration) ∧
          3 ≤ c.duration ∧ c.duration ≤ 60) ∧
    (extract_platform_clips 2 shortVideoAnalysis "youtube" "m" defaultConfig).map
        (fun c => decide (c.end_time - c.start_time < c.duration)) = [true] := by
  constructor
  · intro videoDuration analysis platform media_id c hc
    unfold extract_platform_clips at hc
    obtain ⟨p, hp, rfl⟩ := List.mem_map.mp hc
    have hseg : p.2 ∈ analysis.interesting_segments.take 5 := by
      have h2 := List.mem_map_of_mem Prod.snd hp
      rwa [List.enum_eq_enumFrom, List.enumFrom_map_snd] at h2
    refine ⟨p.2, hseg, rfl, rfl, rfl, ?_, ?_⟩
    · show (3 : ℚ) ≤ min (max p.2.duration 3) 60
      exact le_min (le_max_right _ _) (by norm_num)
    · show min (max p.2.duration 3) 60 ≤ 60
      exact min_le_right _ _
  · rw [shortExtract_eval]
    simp only [List.map]
    norm_num

/-- C10 witnessed: the concrete clip of the 2-second video is tied back
to its source segment. -/
theorem c10_stored_duration_witness :
    ∃ seg ∈ shortVideoAnalysis.interesting_segments.take 5,
      (3 : ℚ) = min (max seg.duration 3) 60 ∧
      (0 : ℚ) = max 0 seg.start_time ∧
      (2 : ℚ) = min 2 ((0 : ℚ) + 3) ∧
      (3 : ℚ) ≤ 3 ∧ (3 : ℚ) ≤ 60 :=
  c10_stored_duration.1 2 shortVideoAnalysis "youtube" "m"
    { start_time := 0, end_time := 2, duration := 3
      file_path := "m_youtube_clip_1.mp4"
      thumbnail_path := "m_youtube_thumb_1.jpg"
      description := "Optimized youtube clip from drone footage"
      tags := ["drone", "farm", "agriculture", "aerial", "youtube", "longform",
        "educational"]
      quality_score := 1 / 2, platform := "youtube" }
    (by rw [shortExtract_eval]; exact List.mem_singleton.mpr rfl)

/-- C8 counterexample: a segment with `end_time ≤ start_time` is not
rejected — there is no `InvalidSegmentError` anywhere in the source — the
extraction pads it to the 3-second minimum and returns a clip. -/
theorem c8_counterexample :
    invertedAnalysis.interesting_segments =
      [{ start_time := 5, end_time := 2, score := 1 / 2, duration := -3 }] ∧
    (2 : ℚ) ≤ 5 ∧
    (extract_platform_clips 10 invertedAnalysis "youtube" "m" defaultConfig).map
      (fun c => (c.start_time, c.end_time, c.duration)) = [(5, 8, 3)] := by
  refine ⟨rfl, by norm_num, ?_⟩
  rw [invertedExtract_eval]
  rfl

/-- C8 amended: the extraction performs no validation of time ranges; an
inverted segment (`end_time ≤ start_time`) is processed like any other —
its duration is clamped up to `min_clip_duration = 3` and exactly one
clip is produced (and in the source, any per-segment exception is caught,
logged and skipped rather than propagated). -/
theorem c8_no_rejection (videoDuration : ℚ) (seg : Segment)
    (platform media_id : String) (h : seg.end_time ≤ seg.start_time) :
    (extract_platform_clips videoDuration
        ⟨[seg], [], [], [], videoDuration⟩ platform media_id defaultConfig).map
      (fun c => (c.start_time, c.duration)) =
      [(max 0 seg.start_time, min (max seg.duration 3) 60)] := rfl

/-- C8 amended, witnessed on a concrete inverted segment. -/
theorem c8_no_rejection_witness :
    (2 : ℚ) ≤ 5 ∧
    (extract_platform_clips 10
        ⟨[{ start_time := 5, end_time := 2, score := 1 / 2, duration := -3 }],
          [], [], [], 10⟩ "tiktok" "m2" defaultConfig).map
      (fun c => (c.start_time, c.duration)) = [(5, 3)] := by
  refine ⟨by norm_num, ?_⟩
  have h := c8_no_rejection 10
    { start_time := 5, end_time := 2, score := 1 / 2, duration := -3 }
    "tiktok" "m2" (by norm_num)
  rw [h]
  norm_num [max_def, min_def]

/-- The peak index list selects exactly the in-range samples whose
combined score strictly exceeds `mean + sqrt variance` over the reals. -/
theorem mem_peakIndices_iff {combined : List ℚ} {i : ℕ} :
    i ∈ peakIndices combined ↔
      i < combined.length ∧
        exceedsThreshold (combined.getD i 0) (npMean combined) (npVar combined) := by
  unfold peakIndices
  rw [List.mem_filter, List.mem_range, peakTest_eq_true_iff]

/-- C1: in every analysis run the peak indices are exactly the samples
whose combined score strictly exceeds the `mean + stddev` threshold, and
they are grouped into maximal runs with consecutive members at most 3
sample-steps apart (the groups
concatenate back to the peak list, and consecutive groups are more than
3 steps apart); a group contributes a segment exactly when it has at
least 2 samples, and that segment's `start_time`/`end_time` are the
timestamps of the group's first/last member, its `score` the mean
combined score of the members, and its `duration` the difference; the
analysis output is a permutation (the descending sort) of these
segments. -/
theorem c1_peak_grouping (v : Video) :
    (∀ i : ℕ, i ∈ peakIndices (combinedOf v) ↔
      i < (combinedOf v).length ∧
        exceedsThreshold ((combinedOf v).getD i 0) (npMean (combinedOf v))
          (npVar (combinedOf v))) ∧
    (groupPeaks (peakIndices (combinedOf v))).flatten = peakIndices (combinedOf v) ∧
    (∀ g ∈ groupPeaks (peakIndices (combinedOf v)),
      g ≠ [] ∧ List.Chain' (fun a b => b - a ≤ 3) g) ∧
    List.Chain' (fun g h => 3 < h.headD 0 - g.getLastD 0)
      (groupPeaks (peakIndices (combinedOf v))) ∧
    (∀ s : Segment,
      s ∈ segmentsFromPeaks (sampleTimesOf v) (combinedOf v)
          (peakIndices (combinedOf v)) ↔
        ∃ g ∈ groupPeaks (peakIndices (combinedOf v)), 2 ≤ g.length ∧
          s.start_time = (sampleTimesOf v).getD (g.headD 0) 0 ∧
          s.end_time = (sampleTimesOf v).getD (g.getLastD 0) 0 ∧
          s.score = npMean (g.map (fun j => (combinedOf v).getD j 0)) ∧
          s.duration = s.end_time - s.start_time) ∧
    List.Perm (segmentsOf v)
      (segmentsFromPeaks (sampleTimesOf v) (combinedOf v)
        (peakIndices (combinedOf v))) := by
  refine ⟨fun i => mem_peakIndices_iff, groupPeaks_flatten _,
    fun g hg => ⟨groupPeaks_ne_nil hg, groupPeaks_chain g hg⟩,
    groupPeaks_boundary _, ?_, ?_⟩
  · intro s
    constructor
    · intro hs
      unfold segmentsFromPeaks at hs
      obtain ⟨g, hgf, rfl⟩ := List.mem_map.mp hs
      rw [List.mem_filter] at hgf
      obtain ⟨hg, hglen⟩ := hgf
      exact ⟨g, hg, by simpa using hglen, rfl, rfl, rfl, rfl⟩
    · rintro ⟨g, hg, hglen, h1, h2, h3, h4⟩
      have hs : s = mkSegment (sampleTimesOf v) (combinedOf v) g := by
        obtain ⟨st, et, sc, du⟩ := s
        simp only at h1 h2 h3 h4
        subst h1
        subst h2
        subst h3
        subst h4
        rfl
      rw [hs]
      unfold segmentsFromPeaks
      exact List.mem_map_of_mem _
        (List.mem_filter.mpr ⟨hg, by simpa using hglen⟩)
  · rw [segmentsOf_def]
    by_cases hemp : (motionScoresOf v).isEmpty
    · rw [if_pos hemp]
      have ht : sampleTimesOf v = [] := by
        have hm : motionScoresOf v = [] := List.isEmpty_iff.mp hemp
        unfold motionScoresOf at hm
        exact List.map_eq_nil_iff.mp hm
      have hcomb : combinedOf v = [] := by
        unfold combinedOf motionScoresOf brightnessScoresOf compositionScoresOf
        rw [ht]
        rfl
      rw [hcomb]
      exact List.Perm.nil
    · rw [if_neg hemp]
      unfold sortByScoreDesc
      exact List.mergeSort_perm _ _

/-- C1 instantiated on the burst video: its single peak group `[2, 3]`
is nonempty and gap-chained, and grouping loses no peaks. -/
theorem c1_peak_grouping_witness :
    ([2, 3] ≠ ([] : List ℕ) ∧ List.Chain' (fun a b => b - a ≤ 3) [2, 3]) ∧
    (groupPeaks (peakIndices (combinedOf burstVideo))).flatten =
      peakIndices (combinedOf burstVideo) :=
  ⟨(c1_peak_grouping burstVideo).2.2.1 [2, 3]
      (by rw [burst_peaks]; exact List.mem_singleton.mpr rfl),
    (c1_peak_grouping burstVideo).2.1⟩
